import Mathlib

/-!
Verification of the WorkerBox message-channel library (src/src/index.ts).

The library exposes `addWorker`, which builds a bidirectional typed channel
between the main thread and a Web Worker.  Both sides run the same mailbox
logic: a `messageQueue : α[]` of unclaimed inbound payloads and a
`pendingReceivers` list of outstanding one-shot `receive()` resolvers
(src/src/index.ts lines 84-118 for the worker side, lines 154-191 for the
main side; the inbound-message listener is lines 132-141 resp. 222-230).

We embed this mailbox as an explicit state machine `EndpointState` with a
step function `step` over timed events, and embed the initiator-side
wrapper (`start`/`send`/`stop`/`subscribe`/the null-worker guards,
lines 153-239) as `MainChannel` with `mstep`.  The fingerprint/memoization
logic of `addWorker` (lines 70-80) is embedded as `computeGlobalKey` /
`addWorkerM`.
-/

namespace WorkerBox

/-- Decidable equality for `Except` results, so that concrete runs of the
embedded API can be checked by `decide`. -/
instance {ε σ : Type} [DecidableEq ε] [DecidableEq σ] : DecidableEq (Except ε σ) := fun x y =>
  match x, y with
  | .error a, .error b => decidable_of_iff (a = b) (by simp)
  | .error _, .ok _ => isFalse (by simp)
  | .ok _, .error _ => isFalse (by simp)
  | .ok a, .ok b => decidable_of_iff (a = b) (by simp)

/-- A pending one-shot receiver: the identifier of the `receive()` call and
the absolute time at which its cancellation timer fires (`none` when
`timeoutMs` was omitted, src/src/index.ts lines 95-112 / 167-186). -/
structure Receiver where
  rid : Nat
  deadline : Option Nat
  deriving DecidableEq, Repr

/-- One endpoint's mutable state, as in src/src/index.ts: `messageQueue`
(line 84 / 154), `pendingReceivers` (line 85 / 155), the per-subscription
logs of messages delivered to `subscribe` callbacks (lines 120-126 /
193-206), plus two histories that record the observable outputs: `resolved`
logs each resolution of a `receive()` promise as (time, rid, value) in
chronological order, and `pollLog` logs the return values of `poll()`
calls (line 116-118 / 189-191). -/
structure EndpointState (α : Type) where
  messageQueue : List α
  pendingReceivers : List Receiver
  subscribers : List (Nat × List α)
  resolved : List (Nat × Nat × Option α)
  pollLog : List (Option α)
  deriving DecidableEq, Repr

/-- The events an endpoint reacts to: a message arriving from the peer,
a `receive()` call, a `poll()` call, a `receive`-timeout timer firing,
and registration/deregistration of a `subscribe` callback. -/
inductive Event (α : Type) where
  | arrive (msg : α)
  | receiveCall (rid : Nat) (timeoutMs : Option Nat)
  | pollCall
  | timerFire (rid : Nat)
  | subscribeCall (sid : Nat)
  | unsubscribeCall (sid : Nat)
  deriving DecidableEq, Repr

/-- Deliver a message to every active subscription callback: each
`subscribe` handler is a separate `addEventListener('message', ...)`
listener (src/src/index.ts lines 120-126 / 196-200), so every listener
observes every inbound message event. -/
def notifySubs {α : Type} (subs : List (Nat × List α)) (m : α) : List (Nat × List α) :=
  subs.map (fun p => (p.1, p.2 ++ [m]))

/-- Remove the first pending receiver with the given id — the
`indexOf`/`splice(index, 1)` pair in the timeout callback
(src/src/index.ts lines 106-109 / 179-182). -/
def removeFirstRid : List Receiver → Nat → List Receiver
  | [], _ => []
  | r :: rest, rid => if r.rid = rid then rest else r :: removeFirstRid rest rid

/-- Remove the first subscription with the given id — `removeEventListener`
detaches the one matching handler (src/src/index.ts line 125 / 204). -/
def removeFirstSub {α : Type} : List (Nat × List α) → Nat → List (Nat × List α)
  | [], _ => []
  | p :: rest, sid => if p.1 = sid then rest else p :: removeFirstSub rest sid

/-- A message event arrives (src/src/index.ts lines 132-141 / 222-230):
all subscription listeners observe it, and the queue-router listener hands
it to the oldest pending receiver if one exists, otherwise appends it to
the queue. -/
def onArrive {α : Type} (s : EndpointState α) (now : Nat) (m : α) : EndpointState α :=
  match s.pendingReceivers with
  | [] =>
    { s with subscribers := notifySubs s.subscribers m,
             messageQueue := s.messageQueue ++ [m] }
  | r :: rest =>
    { s with subscribers := notifySubs s.subscribers m,
             pendingReceivers := rest,
             resolved := s.resolved ++ [(now, r.rid, some m)] }

/-- A `receive(timeoutMs?)` call (src/src/index.ts lines 91-114 /
163-187): if the queue is non-empty the promise resolves at once with the
shifted head; otherwise a resolver is pushed onto `pendingReceivers`, with
deadline `now + timeoutMs` when a timeout was supplied. -/
def onReceive {α : Type} (s : EndpointState α) (now rid : Nat) (timeoutMs : Option Nat) :
    EndpointState α :=
  match s.messageQueue with
  | m :: rest =>
    { s with messageQueue := rest, resolved := s.resolved ++ [(now, rid, some m)] }
  | [] =>
    { s with pendingReceivers :=
        s.pendingReceivers ++ [{ rid := rid, deadline := timeoutMs.map (fun t => now + t) }] }

/-- A `poll()` call returns `messageQueue.shift()` — the head of the
queue, or the no-value sentinel `undefined` when empty
(src/src/index.ts lines 116-118 / 189-191). -/
def onPoll {α : Type} (s : EndpointState α) : EndpointState α :=
  match s.messageQueue with
  | m :: rest => { s with messageQueue := rest, pollLog := s.pollLog ++ [some m] }
  | [] => { s with pollLog := s.pollLog ++ [none] }

/-- A `receive`-timeout timer fires (src/src/index.ts lines 105-111 /
178-184): the resolver is spliced out of `pendingReceivers` and the
promise resolves with `undefined`.  When the receiver has already been
resolved by a message, its resolver ran `clearTimeout` and a late
`resolve(undefined)` on a settled promise is a no-op, so the fire is a
no-op when the id is no longer pending. -/
def onTimer {α : Type} (s : EndpointState α) (now rid : Nat) : EndpointState α :=
  if s.pendingReceivers.any (fun r => r.rid == rid) then
    { s with pendingReceivers := removeFirstRid s.pendingReceivers rid,
             resolved := s.resolved ++ [(now, rid, none)] }
  else s

/-- One step of the endpoint state machine at time `now`. -/
def step {α : Type} (s : EndpointState α) (now : Nat) : Event α → EndpointState α
  | .arrive m => onArrive s now m
  | .receiveCall rid timeoutMs => onReceive s now rid timeoutMs
  | .pollCall => onPoll s
  | .timerFire rid => onTimer s now rid
  | .subscribeCall sid => { s with subscribers := s.subscribers ++ [(sid, [])] }
  | .unsubscribeCall sid => { s with subscribers := removeFirstSub s.subscribers sid }

/-- Run the endpoint over a timed event trace. -/
def runT {α : Type} (s : EndpointState α) : List (Nat × Event α) → EndpointState α
  | [] => s
  | (t, e) :: rest => runT (step s t e) rest

/-- The freshly initialized endpoint: both arrays empty
(src/src/index.ts lines 84-85 / 154-155). -/
def emptyEP {α : Type} : EndpointState α :=
  { messageQueue := [], pendingReceivers := [], subscribers := [], resolved := [], pollLog := [] }

/-- Trace of parameterless `receive()` calls with the given ids. -/
def recvTrace {α : Type} (rids : List Nat) : List (Nat × Event α) :=
  rids.map (fun r => (0, Event.receiveCall r none))

/-- Trace of message arrivals carrying the given payloads. -/
def arriveTrace {α : Type} (msgs : List α) : List (Nat × Event α) :=
  msgs.map (fun m => (0, Event.arrive m))

section EquationLemmas

variable {α : Type}

theorem onArrive_nil (s : EndpointState α) (now : Nat) (m : α)
    (h : s.pendingReceivers = []) :
    onArrive s now m =
      { s with subscribers := notifySubs s.subscribers m,
               messageQueue := s.messageQueue ++ [m] } := by
  unfold onArrive; rw [h]

theorem onArrive_cons (s : EndpointState α) (now : Nat) (m : α) (r : Receiver)
    (rest : List Receiver) (h : s.pendingReceivers = r :: rest) :
    onArrive s now m =
      { s with subscribers := notifySubs s.subscribers m,
               pendingReceivers := rest,
               resolved := s.resolved ++ [(now, r.rid, some m)] } := by
  unfold onArrive; rw [h]

theorem onReceive_cons (s : EndpointState α) (now rid : Nat) (timeoutMs : Option Nat)
    (m : α) (rest : List α) (h : s.messageQueue = m :: rest) :
    onReceive s now rid timeoutMs =
      { s with messageQueue := rest, resolved := s.resolved ++ [(now, rid, some m)] } := by
  unfold onReceive; rw [h]

theorem onReceive_nil (s : EndpointState α) (now rid : Nat) (timeoutMs : Option Nat)
    (h : s.messageQueue = []) :
    onReceive s now rid timeoutMs =
      { s with pendingReceivers :=
          s.pendingReceivers ++ [{ rid := rid, deadline := timeoutMs.map (fun t => now + t) }] } := by
  unfold onReceive; rw [h]

theorem onPoll_cons (s : EndpointState α) (m : α) (rest : List α)
    (h : s.messageQueue = m :: rest) :
    onPoll s = { s with messageQueue := rest, pollLog := s.pollLog ++ [some m] } := by
  unfold onPoll; rw [h]

theorem onPoll_nil (s : EndpointState α) (h : s.messageQueue = []) :
    onPoll s = { s with pollLog := s.pollLog ++ [none] } := by
  unfold onPoll; rw [h]

theorem onTimer_pos (s : EndpointState α) (now rid : Nat)
    (h : s.pendingReceivers.any (fun r => r.rid == rid) = true) :
    onTimer s now rid =
      { s with pendingReceivers := removeFirstRid s.pendingReceivers rid,
               resolved := s.resolved ++ [(now, rid, none)] } := by
  unfold onTimer; rw [h]; simp

theorem onTimer_neg (s : EndpointState α) (now rid : Nat)
    (h : s.pendingReceivers.any (fun r => r.rid == rid) = false) :
    onTimer s now rid = s := by
  unfold onTimer; rw [h]; simp

theorem runT_append (s : EndpointState α) (a b : List (Nat × Event α)) :
    runT s (a ++ b) = runT (runT s a) b := by
  induction a generalizing s with
  | nil => rfl
  | cons p rest ih => cases p with | mk t e => simp [runT, ih]

theorem mem_removeFirstRid (l : List Receiver) (rid : Nat) (r : Receiver)
    (h : r ∈ removeFirstRid l rid) : r ∈ l := by
  induction l with
  | nil => cases h
  | cons q qs ih =>
    by_cases hq : q.rid = rid
    · rw [removeFirstRid, if_pos hq] at h
      exact List.mem_cons_of_mem q h
    · rw [removeFirstRid, if_neg hq] at h
      rcases List.mem_cons.mp h with heq | htail
      · exact heq ▸ List.mem_cons_self q qs
      · exact List.mem_cons_of_mem q (ih htail)

end EquationLemmas

section QueueReceiverExclusion

variable {α : Type}

/-- The mutual-exclusion invariant of an endpoint: the queue and the
pending-receiver list are never simultaneously non-empty. -/
def epInv (s : EndpointState α) : Prop :=
  s.messageQueue = [] ∨ s.pendingReceivers = []

theorem epInv_step (s : EndpointState α) (t : Nat) (e : Event α)
    (h : epInv s) : epInv (step s t e) := by
  cases e with
  | arrive m =>
    cases hp : s.pendingReceivers with
    | nil =>
      rw [step, onArrive_nil s t m hp]
      exact Or.inr hp
    | cons r rest =>
      rw [step, onArrive_cons s t m r rest hp]
      rcases h with hq | hpv
      · exact Or.inl hq
      · rw [hpv] at hp; cases hp
  | receiveCall rid timeoutMs =>
    cases hq : s.messageQueue with
    | nil =>
      rw [step, onReceive_nil s t rid timeoutMs hq]
      exact Or.inl hq
    | cons m rest =>
      rw [step, onReceive_cons s t rid timeoutMs m rest hq]
      rcases h with hq2 | hpv
      · rw [hq2] at hq; cases hq
      · exact Or.inr hpv
  | pollCall =>
    cases hq : s.messageQueue with
    | nil =>
      rw [step, onPoll_nil s hq]
      exact Or.inl hq
    | cons m rest =>
      rw [step, onPoll_cons s m rest hq]
      rcases h with hq2 | hpv
      · rw [hq2] at hq; cases hq
      · exact Or.inr hpv
  | timerFire rid =>
    by_cases hb : s.pendingReceivers.any (fun r => r.rid == rid) = true
    · rw [step, onTimer_pos s t rid hb]
      rcases h with hq | hpv
      · exact Or.inl hq
      · right; rw [hpv]; rfl
    · rw [step, onTimer_neg s t rid (by simpa using hb)]
      exact h
  | subscribeCall sid => exact h
  | unsubscribeCall sid => exact h

theorem epInv_runT (s : EndpointState α) (tr : List (Nat × Event α))
    (h : epInv s) : epInv (runT s tr) := by
  induction tr generalizing s with
  | nil => exact h
  | cons p rest ih =>
    cases p with | mk t e => exact ih (step s t e) (epInv_step s t e h)

/-- C2: in every endpoint state reachable from the empty endpoint by any
interleaving of message arrivals, `receive()` registrations, `poll()`
calls, timer firings and (un)subscriptions, at most one of
{message queue non-empty, pending-receiver list non-empty} holds; and the
routing that maintains it is as the claim states: an arriving message is
handed to the oldest pending receiver when one exists and appended to the
queue otherwise, and a `receive()` call is satisfied from the head of a
non-empty queue and registered as a pending receiver otherwise. -/
theorem C2_queue_receiver_exclusion {α : Type} :
    (∀ tr : List (Nat × Event α),
       (runT emptyEP tr).messageQueue = [] ∨ (runT emptyEP tr).pendingReceivers = [])
    ∧ (∀ (s : EndpointState α) (t : Nat) (m : α) (r : Receiver) (rest : List Receiver),
        s.pendingReceivers = r :: rest →
          (step s t (.arrive m)).resolved = s.resolved ++ [(t, r.rid, some m)] ∧
          (step s t (.arrive m)).messageQueue = s.messageQueue ∧
          (step s t (.arrive m)).pendingReceivers = rest)
    ∧ (∀ (s : EndpointState α) (t : Nat) (m : α),
        s.pendingReceivers = [] →
          (step s t (.arrive m)).messageQueue = s.messageQueue ++ [m] ∧
          (step s t (.arrive m)).pendingReceivers = [])
    ∧ (∀ (s : EndpointState α) (t rid : Nat) (timeoutMs : Option Nat) (m : α) (rest : List α),
        s.messageQueue = m :: rest →
          (step s t (.receiveCall rid timeoutMs)).resolved = s.resolved ++ [(t, rid, some m)] ∧
          (step s t (.receiveCall rid timeoutMs)).messageQueue = rest)
    ∧ (∀ (s : EndpointState α) (t rid : Nat) (timeoutMs : Option Nat),
        s.messageQueue = [] →
          (step s t (.receiveCall rid timeoutMs)).pendingReceivers
            = s.pendingReceivers
              ++ [{ rid := rid, deadline := timeoutMs.map (fun x => t + x) }]) := by
  refine ⟨fun tr => epInv_runT emptyEP tr (Or.inl rfl), ?_, ?_, ?_, ?_⟩
  · intro s t m r rest h
    rw [step, onArrive_cons s t m r rest h]
    exact ⟨rfl, rfl, rfl⟩
  · intro s t m h
    rw [step, onArrive_nil s t m h]
    exact ⟨rfl, h⟩
  · intro s t rid timeoutMs m rest h
    rw [step, onReceive_cons s t rid timeoutMs m rest h]
    exact ⟨rfl, rfl⟩
  · intro s t rid timeoutMs h
    rw [step, onReceive_nil s t rid timeoutMs h]

/-- Witness for C2 at concrete inputs: the invariant on a concrete mixed
trace, and the arrival-routing equation at a concrete state with one
pending receiver. -/
theorem C2_queue_receiver_exclusion_witness :
    ((runT emptyEP [(0, Event.receiveCall 0 none), (1, Event.arrive (5 : Nat)),
        (2, Event.arrive 6), (3, Event.pollCall)]).messageQueue = [] ∨
     (runT emptyEP [(0, Event.receiveCall 0 none), (1, Event.arrive (5 : Nat)),
        (2, Event.arrive 6), (3, Event.pollCall)]).pendingReceivers = [])
    ∧ (step { emptyEP with pendingReceivers := [{ rid := 7, deadline := none }] } 4
         (Event.arrive (9 : Nat))).resolved = [(4, 7, some 9)] := by
  constructor
  · exact (C2_queue_receiver_exclusion (α := Nat)).1 _
  · exact ((C2_queue_receiver_exclusion (α := Nat)).2.1
      { emptyEP with pendingReceivers := [{ rid := 7, deadline := none }] }
      4 9 { rid := 7, deadline := none } [] rfl).1

end QueueReceiverExclusion

section FifoReceivers

variable {α : Type}

theorem recvTrace_on_empty (s : EndpointState α) (rids : List Nat)
    (h : s.messageQueue = []) :
    (runT s (recvTrace rids)).messageQueue = [] ∧
    (runT s (recvTrace rids)).pendingReceivers
      = s.pendingReceivers ++ rids.map (fun r => { rid := r, deadline := none }) ∧
    (runT s (recvTrace rids)).resolved = s.resolved := by
  induction rids generalizing s with
  | nil => simp [recvTrace, runT, h]
  | cons r rest ih =>
    have hstep : step s 0 (Event.receiveCall r none) =
        { s with pendingReceivers := s.pendingReceivers ++ [{ rid := r, deadline := none }] } := by
      rw [step, onReceive_nil s 0 r none h]
      rfl
    have := ih { s with pendingReceivers :=
        s.pendingReceivers ++ [{ rid := r, deadline := none }] } (by simpa using h)
    simp only [recvTrace, List.map_cons, runT, hstep] at *
    refine ⟨this.1, ?_, this.2.2⟩
    rw [this.2.1]
    simp

theorem arriveTrace_no_pending (s : EndpointState α) (msgs : List α)
    (h : s.pendingReceivers = []) :
    (runT s (arriveTrace msgs)).resolved = s.resolved := by
  induction msgs generalizing s with
  | nil => rfl
  | cons m rest ih =>
    have hstep : step s 0 (Event.arrive m) =
        { s with subscribers := notifySubs s.subscribers m,
                 messageQueue := s.messageQueue ++ [m] } := by
      rw [step, onArrive_nil s 0 m h]
    simp only [arriveTrace, List.map_cons, runT, hstep]
    exact ih _ (by simpa using h)

theorem arriveTrace_resolves (s : EndpointState α) (msgs : List α)
    (h : s.messageQueue = []) :
    (runT s (arriveTrace msgs)).resolved
      = s.resolved
        ++ List.zipWith (fun (r : Receiver) (m : α) => (0, r.rid, some m))
             s.pendingReceivers msgs := by
  induction msgs generalizing s with
  | nil => simp [arriveTrace, runT]
  | cons m rest ih =>
    cases hp : s.pendingReceivers with
    | nil =>
      have hstep : step s 0 (Event.arrive m) =
          { s with subscribers := notifySubs s.subscribers m,
                   messageQueue := s.messageQueue ++ [m] } := by
        rw [step, onArrive_nil s 0 m hp]
      simp only [arriveTrace, List.map_cons, runT, hstep]
      have := arriveTrace_no_pending
        { s with subscribers := notifySubs s.subscribers m,
                 messageQueue := s.messageQueue ++ [m] } rest (by simpa using hp)
      simpa [arriveTrace] using this
    | cons r prest =>
      have hstep : step s 0 (Event.arrive m) =
          { s with subscribers := notifySubs s.subscribers m,
                   pendingReceivers := prest,
                   resolved := s.resolved ++ [(0, r.rid, some m)] } := by
        rw [step, onArrive_cons s 0 m r prest hp]
      simp only [arriveTrace, List.map_cons, runT, hstep]
      have := ih { s with subscribers := notifySubs s.subscribers m,
                          pendingReceivers := prest,
                          resolved := s.resolved ++ [(0, r.rid, some m)] } (by simpa using h)
      simp only [arriveTrace] at this
      rw [this]
      simp

/-- C1: when `N` `receive()` calls are registered (in order `rids`) on one
side before any messages arrive, and then messages `msgs` arrive from the
other side, the resolution log pairs the k-th registered receiver with the
k-th arriving message, in order — pending receivers are served strictly
FIFO with respect to arrival order (src/src/index.ts lines 163-187 and
218-233). -/
theorem C1_receivers_fifo {α : Type} (rids : List Nat) (msgs : List α) :
    (runT emptyEP (recvTrace rids ++ arriveTrace msgs)).resolved
      = List.zipWith (fun r m => (0, r, some m)) rids msgs := by
  rw [runT_append]
  have h1 := recvTrace_on_empty (emptyEP (α := α)) rids rfl
  have h2 := arriveTrace_resolves (runT emptyEP (recvTrace rids)) msgs h1.1
  rw [h2, h1.2.1, h1.2.2]
  simp [emptyEP, List.zipWith_map_left]

end FifoReceivers

section Subscriptions

variable {α : Type}

/-- Extract the payload of an arrival event. -/
def payloadOf : Event α → Option α
  | .arrive m => some m
  | _ => none

/-- The payloads of the arrival events of a trace, in order. -/
def arrivalsOf (tr : List (Nat × Event α)) : List α :=
  tr.filterMap (fun p => payloadOf p.2)

/-- The log of messages delivered so far to the subscription with the
given id, or `none` when no such subscription is registered. -/
def getLog (subs : List (Nat × List α)) (sid : Nat) : Option (List α) :=
  (subs.find? (fun p => p.1 == sid)).map (fun p => p.2)

/-- The queue/pending-receiver half of an endpoint: everything except the
subscription listeners — the queue, the pending receivers and the two
output histories. -/
def core (s : EndpointState α) :
    List α × List Receiver × List (Nat × Nat × Option α) × List (Option α) :=
  (s.messageQueue, s.pendingReceivers, s.resolved, s.pollLog)

theorem getLog_notify (subs : List (Nat × List α)) (m : α) (sid : Nat) :
    getLog (notifySubs subs m) sid = (getLog subs sid).map (fun l => l ++ [m]) := by
  induction subs with
  | nil => rfl
  | cons q qs ih =>
    simp only [notifySubs, List.map_cons, getLog, List.find?]
    cases h : (q.1 == sid) with
    | true => simp
    | false => simpa [getLog, notifySubs] using ih

theorem getLog_append_of_some (subs more : List (Nat × List α)) (sid : Nat)
    (L : List α) (h : getLog subs sid = some L) :
    getLog (subs ++ more) sid = some L := by
  induction subs with
  | nil => simp [getLog] at h
  | cons q qs ih =>
    simp only [getLog, List.find?, List.cons_append] at *
    cases hq : (q.1 == sid) with
    | true => rw [hq] at h; simpa using h
    | false => rw [hq] at h; exact ih h

theorem getLog_removeFirstSub (subs : List (Nat × List α)) (sid1 sid : Nat)
    (hne : sid1 ≠ sid) :
    getLog (removeFirstSub subs sid1) sid = getLog subs sid := by
  induction subs with
  | nil => rfl
  | cons q qs ih =>
    by_cases hq : q.1 = sid1
    · have : (q.1 == sid) = false := by
        simp only [beq_eq_false_iff_ne, ne_eq]
        rw [hq]; exact hne
      simp only [removeFirstSub, if_pos hq, getLog, List.find?, this]
    · simp only [removeFirstSub, if_neg hq, getLog, List.find?]
      cases hqs : (q.1 == sid) with
      | true => rfl
      | false => simpa [getLog] using ih

theorem subs_onReceive (s : EndpointState α) (now rid : Nat) (timeoutMs : Option Nat) :
    (onReceive s now rid timeoutMs).subscribers = s.subscribers := by
  cases hq : s.messageQueue with
  | nil => rw [onReceive_nil s now rid timeoutMs hq]
  | cons m rest => rw [onReceive_cons s now rid timeoutMs m rest hq]

theorem subs_onPoll (s : EndpointState α) : (onPoll s).subscribers = s.subscribers := by
  cases hq : s.messageQueue with
  | nil => rw [onPoll_nil s hq]
  | cons m rest => rw [onPoll_cons s m rest hq]

theorem subs_onTimer (s : EndpointState α) (now rid : Nat) :
    (onTimer s now rid).subscribers = s.subscribers := by
  by_cases hb : s.pendingReceivers.any (fun r => r.rid == rid) = true
  · rw [onTimer_pos s now rid hb]
  · rw [onTimer_neg s now rid (by simpa using hb)]

theorem subs_onArrive (s : EndpointState α) (now : Nat) (m : α) :
    (onArrive s now m).subscribers = notifySubs s.subscribers m := by
  cases hp : s.pendingReceivers with
  | nil => rw [onArrive_nil s now m hp]
  | cons r rest => rw [onArrive_cons s now m r rest hp]

theorem subLog_runT (s : EndpointState α) (sid : Nat) (L : List α)
    (tr : List (Nat × Event α))
    (h : getLog s.subscribers sid = some L)
    (hs : ∀ p ∈ tr, p.2 ≠ Event.subscribeCall sid)
    (hu : ∀ p ∈ tr, p.2 ≠ Event.unsubscribeCall sid) :
    getLog (runT s tr).subscribers sid = some (L ++ arrivalsOf tr) := by
  induction tr generalizing s L with
  | nil => simpa [arrivalsOf] using h
  | cons p rest ih =>
    have hs1 : ∀ q ∈ rest, q.2 ≠ Event.subscribeCall sid :=
      fun q hq => hs q (List.mem_cons_of_mem _ hq)
    have hu1 : ∀ q ∈ rest, q.2 ≠ Event.unsubscribeCall sid :=
      fun q hq => hu q (List.mem_cons_of_mem _ hq)
    cases p with | mk t e =>
    cases e with
    | arrive m =>
      have h2 : getLog (step s t (Event.arrive m)).subscribers sid = some (L ++ [m]) := by
        rw [step, subs_onArrive, getLog_notify, h]; rfl
      have h3 := ih _ _ h2 hs1 hu1
      simp only [runT, arrivalsOf, List.filterMap_cons] at *
      simpa [payloadOf, List.append_assoc] using h3
    | receiveCall rid timeoutMs =>
      have h2 : getLog (step s t (Event.receiveCall rid timeoutMs)).subscribers sid = some L := by
        rw [step, subs_onReceive]; exact h
      have h3 := ih _ _ h2 hs1 hu1
      simpa [runT, arrivalsOf, payloadOf] using h3
    | pollCall =>
      have h2 : getLog (step s t Event.pollCall).subscribers sid = some L := by
        rw [step, subs_onPoll]; exact h
      have h3 := ih _ _ h2 hs1 hu1
      simpa [runT, arrivalsOf, payloadOf] using h3
    | timerFire rid =>
      have h2 : getLog (step s t (Event.timerFire rid)).subscribers sid = some L := by
        rw [step, subs_onTimer]; exact h
      have h3 := ih _ _ h2 hs1 hu1
      simpa [runT, arrivalsOf, payloadOf] using h3
    | subscribeCall sid1 =>
      have hne : sid1 ≠ sid := by
        intro hcontra
        exact hs (t, Event.subscribeCall sid1) (List.mem_cons_self _ _) (by rw [hcontra])
      have h2 : getLog (step s t (Event.subscribeCall sid1)).subscribers sid = some L := by
        rw [step]
        exact getLog_append_of_some s.subscribers [(sid1, [])] sid L h
      have h3 := ih _ _ h2 hs1 hu1
      simpa [runT, arrivalsOf, payloadOf] using h3
    | unsubscribeCall sid1 =>
      have hne : sid1 ≠ sid := by
        intro hcontra
        exact hu (t, Event.unsubscribeCall sid1) (List.mem_cons_self _ _) (by rw [hcontra])
      have h2 : getLog (step s t (Event.unsubscribeCall sid1)).subscribers sid = some L := by
        rw [step]
        rw [getLog_removeFirstSub s.subscribers sid1 sid hne]
        exact h
      have h3 := ih _ _ h2 hs1 hu1
      simpa [runT, arrivalsOf, payloadOf] using h3

theorem core_step (s1 s2 : EndpointState α) (t : Nat) (e : Event α)
    (h : core s1 = core s2) : core (step s1 t e) = core (step s2 t e) := by
  have h1 : s1.messageQueue = s2.messageQueue := congrArg Prod.fst h
  have h2 : s1.pendingReceivers = s2.pendingReceivers := congrArg (fun c => c.2.1) h
  have h3 : s1.resolved = s2.resolved := congrArg (fun c => c.2.2.1) h
  have h4 : s1.pollLog = s2.pollLog := congrArg (fun c => c.2.2.2) h
  cases e with
  | arrive m =>
    cases hp : s1.pendingReceivers with
    | nil =>
      rw [step, step, onArrive_nil s1 t m hp, onArrive_nil s2 t m (h2 ▸ hp)]
      simp [core, h1, h2, h3, h4]
    | cons r rest =>
      rw [step, step, onArrive_cons s1 t m r rest hp, onArrive_cons s2 t m r rest (h2 ▸ hp)]
      simp [core, h1, h2, h3, h4]
  | receiveCall rid timeoutMs =>
    cases hq : s1.messageQueue with
    | nil =>
      rw [step, step, onReceive_nil s1 t rid timeoutMs hq,
        onReceive_nil s2 t rid timeoutMs (h1 ▸ hq)]
      simp [core, h1, h2, h3, h4]
    | cons m rest =>
      rw [step, step, onReceive_cons s1 t rid timeoutMs m rest hq,
        onReceive_cons s2 t rid timeoutMs m rest (h1 ▸ hq)]
      simp [core, h1, h2, h3, h4]
  | pollCall =>
    cases hq : s1.messageQueue with
    | nil =>
      rw [step, step, onPoll_nil s1 hq, onPoll_nil s2 (h1 ▸ hq)]
      simp [core, h1, h2, h3, h4]
    | cons m rest =>
      rw [step, step, onPoll_cons s1 m rest hq, onPoll_cons s2 m rest (h1 ▸ hq)]
      simp [core, h1, h2, h3, h4]
  | timerFire rid =>
    by_cases hb : s1.pendingReceivers.any (fun r => r.rid == rid) = true
    · rw [step, step, onTimer_pos s1 t rid hb, onTimer_pos s2 t rid (h2 ▸ hb)]
      simp [core, h1, h2, h3, h4]
    · have hb1 : s1.pendingReceivers.any (fun r => r.rid == rid) = false := by simpa using hb
      rw [step, step, onTimer_neg s1 t rid hb1, onTimer_neg s2 t rid (h2 ▸ hb1)]
      exact h
  | subscribeCall sid =>
    rw [step, step]
    exact h
  | unsubscribeCall sid =>
    rw [step, step]
    exact h

theorem core_runT (s1 s2 : EndpointState α) (h : core s1 = core s2)
    (tr : List (Nat × Event α)) : core (runT s1 tr) = core (runT s2 tr) := by
  induction tr generalizing s1 s2 with
  | nil => exact h
  | cons p rest ih =>
    cases p with | mk t e => exact ih _ _ (core_step s1 s2 t e h)

/-- C8: subscriptions and the queue/pending-receiver mechanism are two
independent delivery paths.  (1) A subscription's callback receives every
message that arrives while the subscription is active, in arrival order,
regardless of the interleaved `poll()`/`receive()`/timer events draining
the same messages — delivery to subscribers is never suppressed by queue
consumption.  (2) Registering or removing a subscription leaves the
queue, the pending receivers and the `receive`/`poll` output histories
untouched.  (3) The queue/pending-receiver half of the endpoint evolves
identically whatever the subscription state is — subscriptions do not
consume from the queue and do not compete with pending receivers. -/
theorem C8_subscriptions_independent {α : Type} :
    (∀ (s : EndpointState α) (sid : Nat) (L : List α) (tr : List (Nat × Event α)),
       getLog s.subscribers sid = some L →
       (∀ p ∈ tr, p.2 ≠ Event.subscribeCall sid) →
       (∀ p ∈ tr, p.2 ≠ Event.unsubscribeCall sid) →
       getLog (runT s tr).subscribers sid = some (L ++ arrivalsOf tr))
    ∧ (∀ (s : EndpointState α) (t sid : Nat),
         core (step s t (.subscribeCall sid)) = core s
         ∧ core (step s t (.unsubscribeCall sid)) = core s)
    ∧ (∀ s1 s2 : EndpointState α, core s1 = core s2 →
         ∀ tr : List (Nat × Event α), core (runT s1 tr) = core (runT s2 tr)) :=
  ⟨subLog_runT, fun _ _ _ => ⟨rfl, rfl⟩, fun s1 s2 h tr => core_runT s1 s2 h tr⟩

/-- Witness for C8 at a concrete input: a subscriber registered before a
mixed trace of two arrivals interleaved with a `poll()` and a `receive()`
receives both messages, even though the queue is drained concurrently. -/
theorem C8_subscriptions_independent_witness :
    (getLog ({ emptyEP with subscribers := [(0, [])] } : EndpointState Nat).subscribers 0
        = some []
     ∧ (∀ p ∈ [((0 : Nat), Event.arrive (3 : Nat)), (0, Event.pollCall),
          (1, Event.arrive 4), (1, Event.receiveCall 1 none)],
          p.2 ≠ Event.subscribeCall 0))
    ∧ getLog (runT ({ emptyEP with subscribers := [(0, [])] } : EndpointState Nat)
        [(0, Event.arrive 3), (0, Event.pollCall),
         (1, Event.arrive 4), (1, Event.receiveCall 1 none)]).subscribers 0
      = some [3, 4] := by
  refine ⟨⟨by decide, by decide⟩, ?_⟩
  exact (C8_subscriptions_independent (α := Nat)).1
    { emptyEP with subscribers := [(0, [])] } 0 []
    [(0, Event.arrive 3), (0, Event.pollCall), (1, Event.arrive 4), (1, Event.receiveCall 1 none)]
    (by decide) (by decide) (by decide)

end Subscriptions

section ReceiveTimeout

variable {α : Type}

/-- Whether an event is a `receive()` call with the given receiver id. -/
def isRecvFor (rid : Nat) : Event α → Bool
  | .receiveCall r _ => r == rid
  | _ => false

/-- The `setTimeout` contract for a timer-fire event: a timer scheduled
with delay `timeoutMs` at registration time runs its callback no earlier
than its absolute deadline.  All other events are unconstrained. -/
def fireOkB (s : EndpointState α) (t : Nat) : Event α → Bool
  | .timerFire rid =>
    s.pendingReceivers.all (fun r =>
      if r.rid = rid then
        match r.deadline with
        | some dl => decide (dl ≤ t)
        | none => true
      else true)
  | _ => true

/-- A timed trace is valid when event times are nondecreasing and every
timer fire respects its receiver's deadline — the environment guarantees
of the event loop and `setTimeout`. -/
def validB : Nat → EndpointState α → List (Nat × Event α) → Bool
  | _, _, [] => true
  | last, s, (t, e) :: rest =>
    decide (last ≤ t) && fireOkB s t e && validB t (step s t e) rest

/-- The timestamp at the end of a timed trace. -/
def endT : Nat → List (Nat × Event α) → Nat
  | l, [] => l
  | _, (t, _) :: rest => endT t rest

theorem validB_cons_elim (last : Nat) (s : EndpointState α) (t : Nat) (e : Event α)
    (rest : List (Nat × Event α)) (h : validB last s ((t, e) :: rest) = true) :
    last ≤ t ∧ fireOkB s t e = true ∧ validB t (step s t e) rest = true := by
  rw [validB] at h
  simp only [Bool.and_eq_true, decide_eq_true_eq] at h
  exact ⟨h.1.1, h.1.2, h.2⟩

theorem validB_append (l : Nat) (s : EndpointState α) (a b : List (Nat × Event α))
    (h : validB l s (a ++ b) = true) : validB (endT l a) (runT s a) b = true := by
  induction a generalizing l s with
  | nil => exact h
  | cons p rest ih =>
    cases p with | mk t e =>
    have h2 := validB_cons_elim l s t e (rest ++ b) h
    exact ih t (step s t e) h2.2.2

/-- A receiver id untouched so far: not pending and never resolved. -/
def ridFresh (rid : Nat) (s : EndpointState α) : Prop :=
  (∀ r ∈ s.pendingReceivers, r.rid ≠ rid) ∧ (∀ e ∈ s.resolved, e.2.1 ≠ rid)

theorem ridFresh_step (rid : Nat) (s : EndpointState α) (now : Nat) (e : Event α)
    (he : isRecvFor rid e = false) (h : ridFresh rid s) : ridFresh rid (step s now e) := by
  obtain ⟨h1, h2⟩ := h
  cases e with
  | arrive m =>
    cases hp : s.pendingReceivers with
    | nil =>
      rw [step, onArrive_nil s now m hp]
      exact ⟨h1, h2⟩
    | cons r rest =>
      rw [step, onArrive_cons s now m r rest hp]
      refine ⟨fun x hx => h1 x (hp ▸ List.mem_cons_of_mem r hx), ?_⟩
      intro e2 he2
      rcases List.mem_append.mp he2 with hold | hnew
      · exact h2 e2 hold
      · have : e2 = (now, r.rid, some m) := by simpa using hnew
        rw [this]
        exact h1 r (hp ▸ List.mem_cons_self r rest)
  | receiveCall rid2 timeoutMs =>
    have hrid : rid2 ≠ rid := by simpa [isRecvFor] using he
    cases hq : s.messageQueue with
    | nil =>
      rw [step, onReceive_nil s now rid2 timeoutMs hq]
      refine ⟨?_, h2⟩
      intro r hr
      rcases List.mem_append.mp hr with hold | hnew
      · exact h1 r hold
      · have : r = { rid := rid2, deadline := timeoutMs.map (fun x => now + x) } := by
          simpa using hnew
        rw [this]
        exact hrid
    | cons m rest =>
      rw [step, onReceive_cons s now rid2 timeoutMs m rest hq]
      refine ⟨h1, ?_⟩
      intro e2 he2
      rcases List.mem_append.mp he2 with hold | hnew
      · exact h2 e2 hold
      · have : e2 = (now, rid2, some m) := by simpa using hnew
        rw [this]
        exact hrid
  | pollCall =>
    cases hq : s.messageQueue with
    | nil => rw [step, onPoll_nil s hq]; exact ⟨h1, h2⟩
    | cons m rest => rw [step, onPoll_cons s m rest hq]; exact ⟨h1, h2⟩
  | timerFire rid2 =>
    by_cases hb : s.pendingReceivers.any (fun r => r.rid == rid2) = true
    · rw [step, onTimer_pos s now rid2 hb]
      have hrne : rid2 ≠ rid := by
        rcases List.any_eq_true.mp hb with ⟨r, hrm, hrr⟩
        have : r.rid = rid2 := by simpa using hrr
        intro hcontra
        exact h1 r hrm (this.trans hcontra)
      refine ⟨fun r hr => h1 r (mem_removeFirstRid _ _ r hr), ?_⟩
      intro e2 he2
      rcases List.mem_append.mp he2 with hold | hnew
      · exact h2 e2 hold
      · have : e2 = (now, rid2, none) := by simpa using hnew
        rw [this]
        exact hrne
    · rw [step, onTimer_neg s now rid2 (by simpa using hb)]
      exact ⟨h1, h2⟩
  | subscribeCall sid => exact ⟨h1, h2⟩
  | unsubscribeCall sid => exact ⟨h1, h2⟩

theorem ridFresh_runT (rid : Nat) (s : EndpointState α) (tr : List (Nat × Event α))
    (htr : ∀ p ∈ tr, isRecvFor rid p.2 = false) (h : ridFresh rid s) :
    ridFresh rid (runT s tr) := by
  induction tr generalizing s with
  | nil => exact h
  | cons p rest ih =>
    cases p with | mk t e =>
    exact ih (step s t e)
      (fun q hq => htr q (List.mem_cons_of_mem _ hq))
      (ridFresh_step rid s t e (htr (t, e) (List.mem_cons_self _ _)) h)

theorem countP_removeFirstRid_self (l : List Receiver) (rid : Nat)
    (h : l.any (fun r => r.rid == rid) = true) :
    (removeFirstRid l rid).countP (fun r => r.rid == rid) + 1
      = l.countP (fun r => r.rid == rid) := by
  induction l with
  | nil => cases h
  | cons q qs ih =>
    by_cases hq : q.rid = rid
    · rw [removeFirstRid, if_pos hq, List.countP_cons]
      simp [hq]
    · have hq2 : (q.rid == rid) = false := by simpa using hq
      have h2 : qs.any (fun r => r.rid == rid) = true := by
        rcases List.any_eq_true.mp h with ⟨r, hrm, hrr⟩
        rcases List.mem_cons.mp hrm with heq | htail
        · exfalso; rw [heq] at hrr; rw [hq2] at hrr; cases hrr
        · exact List.any_eq_true.mpr ⟨r, htail, hrr⟩
      rw [removeFirstRid, if_neg hq, List.countP_cons, List.countP_cons]
      have h3 := ih h2
      omega

theorem countP_removeFirstRid_other (l : List Receiver) (rid rid2 : Nat)
    (hne : rid2 ≠ rid) :
    (removeFirstRid l rid2).countP (fun r => r.rid == rid)
      = l.countP (fun r => r.rid == rid) := by
  induction l with
  | nil => rfl
  | cons q qs ih =>
    by_cases hq : q.rid = rid2
    · have : (q.rid == rid) = false := by
        simp only [beq_eq_false_iff_ne, ne_eq]
        rw [hq]; exact hne
      rw [removeFirstRid, if_pos hq, List.countP_cons]
      simp [this]
    · rw [removeFirstRid, if_neg hq, List.countP_cons, List.countP_cons, ih]

theorem two_le_countP {γ : Type} (p : γ → Bool) (a b : γ) (l : List γ) (hab : a ≠ b)
    (ha : a ∈ l) (hb : b ∈ l) (pa : p a = true) (pb : p b = true) : 2 ≤ l.countP p := by
  induction l with
  | nil => cases ha
  | cons c cs ih =>
    rw [List.countP_cons]
    rcases List.mem_cons.mp ha with hac | hacs
    · have hbcs : b ∈ cs := by
        rcases List.mem_cons.mp hb with hbc | hbcs
        · exfalso; exact hab (hac.trans hbc.symm)
        · exact hbcs
      have h1 : 0 < cs.countP p := List.countP_pos_iff.mpr ⟨b, hbcs, pb⟩
      have h2 : p c = true := hac ▸ pa
      rw [if_pos h2]
      omega
    · rcases List.mem_cons.mp hb with hbc | hbcs
      · have h1 : 0 < cs.countP p := List.countP_pos_iff.mpr ⟨a, hacs, pa⟩
        have h2 : p c = true := hbc ▸ pb
        rw [if_pos h2]
        omega
      · have := ih hacs hbcs
        omega

/-- The invariant tracked after a timed `receive()` registered receiver
`rid` with absolute deadline `dl`: every pending occurrence of `rid`
carries deadline `dl`; `rid` is pending or resolved at most once in
total; and any timeout resolution of `rid` happened no earlier than
`dl`. -/
def timedInv (rid dl : Nat) (s : EndpointState α) : Prop :=
  (∀ r ∈ s.pendingReceivers, r.rid = rid → r.deadline = some dl)
  ∧ (s.pendingReceivers.countP (fun r => r.rid == rid)
      + s.resolved.countP (fun e => e.2.1 == rid) ≤ 1)
  ∧ (∀ e ∈ s.resolved, e.2.1 = rid → e.2.2 = none → dl ≤ e.1)

theorem timedInv_step (rid dl : Nat) (s : EndpointState α) (now : Nat) (e : Event α)
    (he : isRecvFor rid e = false) (hfire : fireOkB s now e = true)
    (h : timedInv rid dl s) : timedInv rid dl (step s now e) := by
  obtain ⟨h1, h2, h3⟩ := h
  cases e with
  | arrive m =>
    cases hp : s.pendingReceivers with
    | nil =>
      rw [step, onArrive_nil s now m hp]
      exact ⟨h1, h2, h3⟩
    | cons r rest =>
      rw [step, onArrive_cons s now m r rest hp]
      refine ⟨fun x hx => h1 x (hp ▸ List.mem_cons_of_mem r hx), ?_, ?_⟩
      · rw [hp, List.countP_cons] at h2
        rw [List.countP_append, List.countP_cons]
        simp only [List.countP_nil, List.countP_cons] at *
        omega
      · intro e2 he2 heq hval
        rcases List.mem_append.mp he2 with hold | hnew
        · exact h3 e2 hold heq hval
        · exfalso
          have : e2 = (now, r.rid, some m) := by simpa using hnew
          rw [this] at hval
          cases hval
  | receiveCall rid2 timeoutMs =>
    have hrid : (rid2 == rid) = false := by simpa [isRecvFor] using he
    cases hq : s.messageQueue with
    | nil =>
      rw [step, onReceive_nil s now rid2 timeoutMs hq]
      refine ⟨?_, ?_, h3⟩
      · intro r hr heq
        rcases List.mem_append.mp hr with hold | hnew
        · exact h1 r hold heq
        · exfalso
          have hval : r = { rid := rid2, deadline := timeoutMs.map (fun t => now + t) } := by
            simpa using hnew
          subst hval
          simp at heq
          rw [heq] at hrid
          simp at hrid
      · simp only [List.countP_append, List.countP_cons, List.countP_nil]
        simpa [hrid] using h2

    | cons m rest =>
      rw [step, onReceive_cons s now rid2 timeoutMs m rest hq]
      refine ⟨h1, ?_, ?_⟩
      · simp only [List.countP_append, List.countP_cons, List.countP_nil]
        simpa [hrid] using h2
      · intro e2 he2 heq hval
        rcases List.mem_append.mp he2 with hold | hnew
        · exact h3 e2 hold heq hval
        · exfalso
          have : e2 = (now, rid2, some m) := by simpa using hnew
          rw [this] at hval
          cases hval
  | pollCall =>
    cases hq : s.messageQueue with
    | nil => rw [step, onPoll_nil s hq]; exact ⟨h1, h2, h3⟩
    | cons m rest => rw [step, onPoll_cons s m rest hq]; exact ⟨h1, h2, h3⟩
  | timerFire rid2 =>
    by_cases hb : s.pendingReceivers.any (fun r => r.rid == rid2) = true
    · rw [step, onTimer_pos s now rid2 hb]
      by_cases hr2 : rid2 = rid
      · subst hr2
        have hdl : dl ≤ now := by
          rcases List.any_eq_true.mp hb with ⟨r, hrm, hrr⟩
          have hrr2 : r.rid = rid2 := by simpa using hrr
          have hrdl : r.deadline = some dl := h1 r hrm hrr2
          rw [fireOkB, List.all_eq_true] at hfire
          have h7 := hfire r hrm
          rw [if_pos hrr2, hrdl] at h7
          simpa using h7
        refine ⟨fun r hr => h1 r (mem_removeFirstRid _ _ r hr), ?_, ?_⟩
        · have h5 := countP_removeFirstRid_self s.pendingReceivers rid2 hb
          simp only [List.countP_append, List.countP_cons, List.countP_nil]
          simp
          omega
        · intro e2 he2 heq hval
          rcases List.mem_append.mp he2 with hold | hnew
          · exact h3 e2 hold heq hval
          · have : e2 = (now, rid2, none) := by simpa using hnew
            rw [this]
            exact hdl
      · have hne : (rid2 == rid) = false := by simpa using hr2
        refine ⟨fun r hr => h1 r (mem_removeFirstRid _ _ r hr), ?_, ?_⟩
        · simp only [List.countP_append, List.countP_cons, List.countP_nil]
          rw [countP_removeFirstRid_other s.pendingReceivers rid rid2 hr2]
          simpa [hne] using h2
        · intro e2 he2 heq hval
          rcases List.mem_append.mp he2 with hold | hnew
          · exact h3 e2 hold heq hval
          · exfalso
            have : e2 = (now, rid2, none) := by simpa using hnew
            rw [this] at heq
            exact hr2 heq
    · rw [step, onTimer_neg s now rid2 (by simpa using hb)]
      exact ⟨h1, h2, h3⟩
  | subscribeCall sid => exact ⟨h1, h2, h3⟩
  | unsubscribeCall sid => exact ⟨h1, h2, h3⟩

theorem timedInv_runT (rid dl : Nat) (s : EndpointState α) (last : Nat)
    (tr : List (Nat × Event α)) (hv : validB last s tr = true)
    (htr : ∀ p ∈ tr, isRecvFor rid p.2 = false) (h : timedInv rid dl s) :
    timedInv rid dl (runT s tr) := by
  induction tr generalizing s last with
  | nil => exact h
  | cons p rest ih =>
    cases p with | mk t e =>
    have hv2 := validB_cons_elim last s t e rest hv
    exact ih (step s t e) t hv2.2.2
      (fun q hq => htr q (List.mem_cons_of_mem _ hq))
      (timedInv_step rid dl s t e (htr (t, e) (List.mem_cons_self _ _)) hv2.2.1 h)

theorem mem_resolved_step (s : EndpointState α) (t : Nat) (e : Event α)
    (x : Nat × Nat × Option α) (h : x ∈ s.resolved) : x ∈ (step s t e).resolved := by
  cases e with
  | arrive m =>
    cases hp : s.pendingReceivers with
    | nil => rw [step, onArrive_nil s t m hp]; exact h
    | cons r rest =>
      rw [step, onArrive_cons s t m r rest hp]
      exact List.mem_append_left _ h
  | receiveCall rid timeoutMs =>
    cases hq : s.messageQueue with
    | nil => rw [step, onReceive_nil s t rid timeoutMs hq]; exact h
    | cons m rest =>
      rw [step, onReceive_cons s t rid timeoutMs m rest hq]
      exact List.mem_append_left _ h
  | pollCall =>
    cases hq : s.messageQueue with
    | nil => rw [step, onPoll_nil s hq]; exact h
    | cons m rest => rw [step, onPoll_cons s m rest hq]; exact h
  | timerFire rid =>
    by_cases hb : s.pendingReceivers.any (fun r => r.rid == rid) = true
    · rw [step, onTimer_pos s t rid hb]
      exact List.mem_append_left _ h
    · rw [step, onTimer_neg s t rid (by simpa using hb)]; exact h
  | subscribeCall sid => exact h
  | unsubscribeCall sid => exact h

theorem mem_resolved_runT (s : EndpointState α) (tr : List (Nat × Event α))
    (x : Nat × Nat × Option α) (h : x ∈ s.resolved) : x ∈ (runT s tr).resolved := by
  induction tr generalizing s with
  | nil => exact h
  | cons p rest ih =>
    cases p with | mk t e => exact ih (step s t e) (mem_resolved_step s t e x h)

theorem timer_fire_resolves (s : EndpointState α) (tf rid : Nat)
    (rest : List (Nat × Event α))
    (hb : s.pendingReceivers.any (fun r => r.rid == rid) = true) :
    (tf, rid, (none : Option α)) ∈ (runT s ((tf, Event.timerFire rid) :: rest)).resolved := by
  have h2 : (tf, rid, (none : Option α)) ∈ (onTimer s tf rid).resolved := by
    rw [onTimer_pos s tf rid hb]
    exact List.mem_append_right _ (List.mem_singleton.mpr rfl)
  exact mem_resolved_runT (onTimer s tf rid) rest _ h2

/-- C7: a `receive(timeoutMs)` call issued with an empty queue.  In any
valid timed trace (times nondecreasing, timers firing no earlier than
their deadlines — the `setTimeout` contract) in which no other `receive`
reuses the same receiver id: (1) if the call's receiver resolves with the
no-value sentinel at time `tf`, then `tf ≥ t0 + T` (no earlier than
`timeoutMs` after the call) and no arriving message is ever delivered to
that receiver — the timeout removed it from the pending list; and
(2) when the timer does fire while the receiver is still pending, the
receiver resolves with the no-value sentinel. -/
theorem C7_receive_timeout {α : Type} (rid T t0 : Nat)
    (pre post : List (Nat × Event α))
    (hpre : ∀ p ∈ pre, isRecvFor rid p.2 = false)
    (hpost : ∀ p ∈ post, isRecvFor rid p.2 = false)
    (hq : (runT (emptyEP : EndpointState α) pre).messageQueue = [])
    (hvalid : validB 0 emptyEP
      (pre ++ (t0, Event.receiveCall rid (some T)) :: post) = true) :
    (∀ tf, (tf, rid, (none : Option α))
        ∈ (runT emptyEP (pre ++ (t0, Event.receiveCall rid (some T)) :: post)).resolved →
      t0 + T ≤ tf
      ∧ ∀ (tm : Nat) (m : α), (tm, rid, some m)
          ∉ (runT emptyEP (pre ++ (t0, Event.receiveCall rid (some T)) :: post)).resolved)
    ∧ (∀ mid tf rest, post = mid ++ (tf, Event.timerFire rid) :: rest →
        (∃ r ∈ (runT (step (runT emptyEP pre) t0
            (Event.receiveCall rid (some T))) mid).pendingReceivers, r.rid = rid) →
        (tf, rid, (none : Option α))
          ∈ (runT emptyEP (pre ++ (t0, Event.receiveCall rid (some T)) :: post)).resolved) := by
  have hfinal : runT emptyEP (pre ++ (t0, Event.receiveCall rid (some T)) :: post)
      = runT (step (runT emptyEP pre) t0 (Event.receiveCall rid (some T))) post := by
    rw [runT_append]
    rfl
  have hfresh : ridFresh rid (runT (emptyEP : EndpointState α) pre) :=
    ridFresh_runT rid emptyEP pre hpre ⟨fun r hr => absurd hr (by simp [emptyEP]),
      fun e he => absurd he (by simp [emptyEP])⟩
  have hreg : step (runT emptyEP pre) t0 (Event.receiveCall rid (some T))
      = { runT emptyEP pre with pendingReceivers :=
            (runT emptyEP pre).pendingReceivers ++ [{ rid := rid, deadline := some (t0 + T) }] } := by
    rw [step, onReceive_nil _ t0 rid (some T) hq]
    rfl
  have hinv0 : timedInv rid (t0 + T)
      (step (runT emptyEP pre) t0 (Event.receiveCall rid (some T))) := by
    rw [hreg]
    refine ⟨?_, ?_, ?_⟩
    · intro r hr heq
      rcases List.mem_append.mp hr with hold | hnew
      · exact absurd heq (hfresh.1 r hold)
      · have : r = { rid := rid, deadline := some (t0 + T) } := by simpa using hnew
        rw [this]
    · have hz1 : (runT (emptyEP : EndpointState α) pre).pendingReceivers.countP
          (fun r => r.rid == rid) = 0 := by
        rw [List.countP_eq_zero]
        intro r hr
        simpa using hfresh.1 r hr
      have hz2 : (runT (emptyEP : EndpointState α) pre).resolved.countP
          (fun e => e.2.1 == rid) = 0 := by
        rw [List.countP_eq_zero]
        intro e he
        simpa using hfresh.2 e he
      rw [List.countP_append, hz1, hz2, List.countP_cons]
      simp
    · intro e he heq hval
      exact absurd heq (hfresh.2 e he)
  have hvpost : validB t0
      (step (runT emptyEP pre) t0 (Event.receiveCall rid (some T))) post = true := by
    have h2 := validB_append 0 emptyEP pre
      ((t0, Event.receiveCall rid (some T)) :: post) hvalid
    exact (validB_cons_elim _ _ t0 _ post h2).2.2
  have hinvF : timedInv rid (t0 + T)
      (runT (step (runT emptyEP pre) t0 (Event.receiveCall rid (some T))) post) :=
    timedInv_runT rid (t0 + T) _ t0 post hvpost hpost hinv0
  constructor
  · intro tf hmem
    rw [hfinal] at hmem
    constructor
    · exact hinvF.2.2 (tf, rid, none) hmem rfl rfl
    · intro tm m hmem2
      rw [hfinal] at hmem2
      have h2 := two_le_countP (fun e => e.2.1 == rid) (tf, rid, none) (tm, rid, some m)
        _ (by simp) hmem hmem2 (by simp) (by simp)
      have h3 := hinvF.2.1
      omega
  · intro mid tf rest hpost2 hpend
    rw [hfinal, hpost2, runT_append]
    apply timer_fire_resolves
    rcases hpend with ⟨r, hrm, hrr⟩
    exact List.any_eq_true.mpr ⟨r, hrm, by simpa using hrr⟩

/-- Witness for C7 at a concrete input: `receive` with a 5-tick timeout
registered at time 1 on an empty endpoint, whose timer fires at time 6:
the receiver resolves with the sentinel no earlier than `1 + 5`, and no
message is ever delivered to it. -/
theorem C7_receive_timeout_witness :
    validB 0 (emptyEP : EndpointState Nat)
        ([] ++ (1, Event.receiveCall 0 (some 5)) :: [(6, Event.timerFire 0)]) = true
    ∧ (1 + 5 ≤ 6
       ∧ ∀ (tm : Nat) (m : Nat), (tm, 0, some m)
           ∉ (runT emptyEP
               ([] ++ (1, Event.receiveCall 0 (some 5)) :: [(6, Event.timerFire 0)])).resolved) := by
  refine ⟨by decide, ?_⟩
  exact (C7_receive_timeout 0 5 1 [] [(6, Event.timerFire 0)]
    (by decide) (by decide) (by decide) (by decide)).1 6 (by decide)

end ReceiveTimeout

/-! ## The initiator-side wrapper

`addWorker` closes the endpoint state over a `worker : null | Worker`
handle (src/src/index.ts line 153).  `send` silently returns when the
handle is null (lines 157-161); `receive` and `poll` never consult the
handle (lines 163-191); `subscribe`, the returned unsubscribe closure and
`stop` throw `Error("Run Not Called")` when it is null (lines 194, 202,
209); `stop` terminates the worker, nulls the handle, clears both arrays
and revokes the blob URL (lines 208-216); `start` returns early when the
handle is non-null and otherwise spawns a worker from the (possibly
revoked) blob URL, attaches the queue-router listener and posts the
initialization payload as the first wire message (lines 218-233). -/

/-- The two `Error` values thrown by the initiator-side wrapper:
`"Run Not Called"` (src/src/index.ts lines 194 and 209) and
`"Run Not Called; How did you even get this far?"` (line 202). -/
inductive MainError where
  | runNotCalled
  | runNotCalledUnsub
  deriving DecidableEq, Repr

/-- The initiator-side channel state: the nullable worker handle (handles
are numbered by spawn order), the number of contexts spawned so far,
whether `URL.revokeObjectURL(workerUrl)` has run, the ordered list of
payloads posted to the worker (the wire), and the local endpoint. -/
structure MainChannel (μ : Type) where
  worker : Option Nat
  spawnCount : Nat
  urlRevoked : Bool
  posted : List μ
  ep : EndpointState μ
  deriving DecidableEq, Repr

/-- State produced by `addWorker` itself, before `start` (src/src/index.ts
lines 153-155): null handle, empty arrays, nothing posted. -/
def initMain {μ : Type} : MainChannel μ :=
  { worker := none, spawnCount := 0, urlRevoked := false, posted := [], ep := emptyEP }

/-- `send` (src/src/index.ts lines 157-161): silent no-op (an `Except.ok`,
not an error) when the worker handle is null, otherwise posts the
message. -/
def sendM {μ : Type} (s : MainChannel μ) (m : μ) : Except MainError (MainChannel μ) :=
  match s.worker with
  | none => .ok s
  | some _ => .ok { s with posted := s.posted ++ [m] }

/-- `receive` (src/src/index.ts lines 163-187): never consults the worker
handle; always succeeds, acting on the local queue/pending-receiver
state. -/
def receiveM {μ : Type} (s : MainChannel μ) (now rid : Nat) (timeoutMs : Option Nat) :
    Except MainError (MainChannel μ) :=
  .ok { s with ep := step s.ep now (.receiveCall rid timeoutMs) }

/-- `poll` (src/src/index.ts lines 189-191): never consults the worker
handle; shifts the queue head. -/
def pollM {μ : Type} (s : MainChannel μ) : Except MainError (MainChannel μ) :=
  .ok { s with ep := step s.ep 0 .pollCall }

/-- The value `poll` returns: `messageQueue.shift()`, i.e. the head of the
queue or the no-value sentinel `undefined`. -/
def pollRet {μ : Type} (s : MainChannel μ) : Option μ :=
  s.ep.messageQueue.head?

/-- `subscribe` (src/src/index.ts lines 193-206): throws
`Error("Run Not Called")` when the worker handle is null, otherwise
attaches a message listener. -/
def subscribeM {μ : Type} (s : MainChannel μ) (sid : Nat) :
    Except MainError (MainChannel μ) :=
  match s.worker with
  | none => .error .runNotCalled
  | some _ => .ok { s with ep := step s.ep 0 (.subscribeCall sid) }

/-- The unsubscribe closure returned by `subscribe` (src/src/index.ts
lines 201-205): throws `Error("Run Not Called; How did you even get this
far?")` when the worker handle is null, otherwise removes the listener. -/
def unsubscribeM {μ : Type} (s : MainChannel μ) (sid : Nat) :
    Except MainError (MainChannel μ) :=
  match s.worker with
  | none => .error .runNotCalledUnsub
  | some _ => .ok { s with ep := step s.ep 0 (.unsubscribeCall sid) }

/-- `stop` (src/src/index.ts lines 208-216): throws
`Error("Run Not Called")` when the worker handle is null; otherwise
terminates the worker, nulls the handle, truncates both arrays and revokes
the blob URL. -/
def stopM {μ : Type} (s : MainChannel μ) : Except MainError (MainChannel μ) :=
  match s.worker with
  | none => .error .runNotCalled
  | some _ =>
    .ok { s with worker := none,
                 urlRevoked := true,
                 ep := { s.ep with messageQueue := [], pendingReceivers := [] } }

/-- `start` (src/src/index.ts lines 218-233): returns early when the
worker handle is non-null; otherwise constructs a new `Worker` from the
blob URL (whether or not it has been revoked — the code performs no other
guard), attaches the queue-router listener, and posts `data` as the next
wire message. -/
def startM {μ : Type} (s : MainChannel μ) (d : μ) : Except MainError (MainChannel μ) :=
  match s.worker with
  | some _ => .ok s
  | none =>
    .ok { s with worker := some s.spawnCount,
                 spawnCount := s.spawnCount + 1,
                 posted := s.posted ++ [d] }

/-- An initiator-side API call, for building call sequences. -/
inductive MCall (μ : Type) where
  | start (d : μ)
  | send (m : μ)
  | receive (now rid : Nat) (timeoutMs : Option Nat)
  | poll
  | subscribe (sid : Nat)
  | unsubscribe (sid : Nat)
  | stop
  deriving DecidableEq, Repr

/-- Dispatch one initiator-side API call. -/
def mstep {μ : Type} (s : MainChannel μ) : MCall μ → Except MainError (MainChannel μ)
  | .start d => startM s d
  | .send m => sendM s m
  | .receive now rid timeoutMs => receiveM s now rid timeoutMs
  | .poll => pollM s
  | .subscribe sid => subscribeM s sid
  | .unsubscribe sid => unsubscribeM s sid
  | .stop => stopM s

/-- Run a sequence of initiator-side API calls, stopping at the first
raised error. -/
def mrun {μ : Type} (s : MainChannel μ) : List (MCall μ) → Except MainError (MainChannel μ)
  | [] => .ok s
  | c :: cs =>
    match mstep s c with
    | .error e => .error e
    | .ok s1 => mrun s1 cs

/-- A started channel: the state right after `start` on a fresh channel. -/
def sampleStarted : MainChannel Nat :=
  { worker := some 0, spawnCount := 1, urlRevoked := false, posted := [0], ep := emptyEP }

/-- A stopped channel: the state right after `stop` on `sampleStarted`. -/
def sampleStopped : MainChannel Nat :=
  { worker := none, spawnCount := 1, urlRevoked := true, posted := [0], ep := emptyEP }

section AfterStop

/-- C4 counterexample: after a successful `stop()`, `send`, `receive` and
`poll` do NOT raise — the call sequences below all complete without error,
refuting the claim that every subsequent `send`/`receive`/`poll`/
`subscribe` call raises the NotStarted condition. -/
theorem C4_counterexample :
    (mrun (initMain : MainChannel Nat) [.start 0, .stop, .send 7]).isOk = true
    ∧ (mrun (initMain : MainChannel Nat) [.start 0, .stop, .receive 5 0 none]).isOk = true
    ∧ (mrun (initMain : MainChannel Nat) [.start 0, .stop, .poll]).isOk = true := by
  decide

/-- C4 amended: after `stop()` has been called on the initiator side,
`subscribe` raises the NotStarted condition ("Run Not Called") and a
second `stop()` also raises it, but `send` is a silent no-op that leaves
the state unchanged, and `receive` and `poll` complete without raising
(`receive` registers a pending receiver; `poll` returns the no-value
sentinel since `stop` emptied the queue). -/
theorem C4_after_stop_amended {μ : Type} (s s1 : MainChannel μ)
    (h : stopM s = .ok s1) :
    (∀ sid, subscribeM s1 sid = .error .runNotCalled)
    ∧ stopM s1 = .error .runNotCalled
    ∧ (∀ m, sendM s1 m = .ok s1)
    ∧ (∀ now rid timeoutMs, receiveM s1 now rid timeoutMs
        = .ok { s1 with ep := step s1.ep now (.receiveCall rid timeoutMs) })
    ∧ pollM s1 = .ok { s1 with ep := step s1.ep 0 .pollCall }
    ∧ pollRet s1 = none := by
  have hw : s1.worker = none ∧ s1.ep.messageQueue = [] := by
    unfold stopM at h
    cases hcase : s.worker with
    | none => rw [hcase] at h; cases h
    | some w =>
      rw [hcase] at h
      cases h
      exact ⟨rfl, rfl⟩
  refine ⟨?_, ?_, ?_, fun now rid timeoutMs => rfl, rfl, ?_⟩
  · intro sid; unfold subscribeM; rw [hw.1]
  · unfold stopM; rw [hw.1]
  · intro m; unfold sendM; rw [hw.1]
  · unfold pollRet; rw [hw.2]; rfl

/-- Witness for C4 amended at the concrete stopped channel. -/
theorem C4_after_stop_amended_witness :
    stopM sampleStarted = .ok sampleStopped
    ∧ (subscribeM sampleStopped 0 = .error .runNotCalled
       ∧ stopM sampleStopped = .error .runNotCalled) := by
  refine ⟨by decide, ?_⟩
  have h := C4_after_stop_amended sampleStarted sampleStopped (by decide)
  exact ⟨h.1 0, h.2.1⟩

end AfterStop

section BeforeStart

/-- C5 counterexample: before `start()` has been called, `poll()` and
`receive()` do NOT fail with a "not started" condition — both complete
with `Except.ok`, refuting the claim that `receive`, `poll` and
`subscribe` each fail before start. -/
theorem C5_counterexample :
    (pollM (initMain : MainChannel Nat)).isOk = true
    ∧ (receiveM (initMain : MainChannel Nat) 0 0 none).isOk = true := by
  decide

/-- C5 amended: on the initiator side before `start()`, `send` is a silent
no-op (not an error) and `subscribe` fails with the "not started"
condition, but `receive` completes without failing (registering a pending
receiver) and `poll` completes without failing (returning the no-value
sentinel). -/
theorem C5_before_start_amended {μ : Type} :
    (∀ m : μ, sendM initMain m = .ok initMain)
    ∧ (∀ sid, subscribeM (initMain : MainChannel μ) sid = .error .runNotCalled)
    ∧ pollM (initMain : MainChannel μ)
        = .ok { initMain with ep := { emptyEP with pollLog := [none] } }
    ∧ pollRet (initMain : MainChannel μ) = none
    ∧ (∀ now rid timeoutMs, receiveM (initMain : MainChannel μ) now rid timeoutMs
        = .ok { initMain with ep :=
            { emptyEP with pendingReceivers :=
                [{ rid := rid, deadline := timeoutMs.map (fun x => now + x) }] } }) := by
  refine ⟨fun m => rfl, fun sid => rfl, ?_, rfl, ?_⟩
  · unfold pollM
    rw [step, onPoll_nil _ rfl]
    rfl
  · intro now rid timeoutMs
    unfold receiveM
    rw [step, onReceive_nil _ now rid timeoutMs rfl]
    rfl

end BeforeStart

section Restart

/-- C6 counterexample: the call sequence `start; stop; start` succeeds and
ends with a non-null worker handle and a second spawned context
(`spawnCount = 2`), refuting the claim that no call after a successful
`stop()` returns the channel to RUNNING or spawns a new execution
context. -/
theorem C6_counterexample :
    (mrun (initMain : MainChannel Nat) [.start 0, .stop, .start 1]).map
        (fun s => (s.worker, s.spawnCount))
      = Except.ok (some 1, 2) := by
  decide

/-- C6 amended: STOPPED is not terminal.  After a successful `stop()`, a
later `start(d)` call passes the `worker !== null` idempotency guard
(the only guard in the code), spawns a fresh execution context, posts `d`,
and returns the wrapper to RUNNING — although the blob URL backing the
worker source was revoked by `stop()`, so the new context is constructed
from a revoked URL. -/
theorem C6_stop_not_terminal {μ : Type} (s s1 : MainChannel μ)
    (h : stopM s = .ok s1) (d : μ) :
    startM s1 d
      = .ok { s1 with worker := some s1.spawnCount,
                      spawnCount := s1.spawnCount + 1,
                      posted := s1.posted ++ [d] }
    ∧ s1.urlRevoked = true := by
  have hw : s1.worker = none ∧ s1.urlRevoked = true := by
    unfold stopM at h
    cases hcase : s.worker with
    | none => rw [hcase] at h; cases h
    | some w =>
      rw [hcase] at h
      cases h
      exact ⟨rfl, rfl⟩
  refine ⟨?_, hw.2⟩
  unfold startM; rw [hw.1]

/-- Witness for C6 amended at the concrete stopped channel. -/
theorem C6_stop_not_terminal_witness :
    stopM sampleStarted = .ok sampleStopped
    ∧ startM sampleStopped 3
        = .ok { sampleStopped with worker := some 1, spawnCount := 2, posted := [0, 3] } := by
  refine ⟨by decide, ?_⟩
  have h := C6_stop_not_terminal sampleStarted sampleStopped (by decide) 3
  exact h.1

end Restart

section UnsubscribeAfterStop

/-- C9 counterexample: `start; subscribe; stop; unsubscribe` raises the
"Run Not Called; How did you even get this far?" error — invoking the
unsubscribe action after the peer context is gone DOES raise, refuting the
claim. -/
theorem C9_counterexample :
    mrun (initMain : MainChannel Nat) [.start 0, .subscribe 0, .stop, .unsubscribe 0]
      = .error .runNotCalledUnsub := by
  decide

/-- C9 amended: invoking the unsubscribe action returned by `subscribe()`
after `stop()` (when the worker handle is null) raises the
"Run Not Called; How did you even get this far?" error rather than
detaching defensively. -/
theorem C9_unsubscribe_after_stop_raises {μ : Type} (s s1 : MainChannel μ)
    (h : stopM s = .ok s1) (sid : Nat) :
    unsubscribeM s1 sid = .error .runNotCalledUnsub := by
  have hw : s1.worker = none := by
    unfold stopM at h
    cases hcase : s.worker with
    | none => rw [hcase] at h; cases h
    | some w => rw [hcase] at h; cases h; rfl
  unfold unsubscribeM; rw [hw]

/-- Witness for C9 amended at the concrete stopped channel. -/
theorem C9_unsubscribe_after_stop_raises_witness :
    stopM sampleStarted = .ok sampleStopped
    ∧ unsubscribeM sampleStopped 0 = .error .runNotCalledUnsub :=
  ⟨by decide, C9_unsubscribe_after_stop_raises sampleStarted sampleStopped (by decide) 0⟩

end UnsubscribeAfterStop

/-! ## Fingerprint computation and memoization

`addWorker` derives a global memoization key from the worker callback's
source text (src/src/index.ts lines 70-80): it tries
`btoa(encodeURIComponent(src))`; if that throws, the `catch` block tries
`Buffer.from(src).toString('base64')`; there is no outer handler, so if
the fallback also throws, the exception propagates out of `addWorker`.
The two environment encoders are modelled abstractly by their results:
`some key` when the encoder succeeds, `none` when it throws. -/

/-- The constant tag prepended to the fingerprint
(src/src/index.ts lines 70, 73, 75). -/
def wbKeyTag : String := "__WebWorker_"

/-- The fingerprint computation of src/src/index.ts lines 72-76: primary
encoding, fallback on failure, uncaught propagation when both fail. -/
def computeGlobalKey (enc1 enc2 : Option String) : Except Unit String :=
  match enc1 with
  | some k => .ok (wbKeyTag ++ k)
  | none =>
    match enc2 with
    | some k => .ok (wbKeyTag ++ k)
    | none => .error ()

/-- The construction path of `addWorker` (src/src/index.ts lines 70-80 and
237-239): compute the key (propagating an encoding failure), then return
the memoized entry when the key is registered and otherwise register and
return a fresh entry. -/
def addWorkerM {π : Type} (registry : List (String × π)) (enc1 enc2 : Option String)
    (fresh : π) : Except Unit (π × List (String × π)) :=
  match computeGlobalKey enc1 enc2 with
  | .error e => .error e
  | .ok key =>
    match registry.find? (fun p => p.1 == key) with
    | some p => .ok (p.2, registry)
    | none => .ok (fresh, (key, fresh) :: registry)

section Fingerprint

/-- C10 counterexample: when both encodings fail, `addWorkerM` does NOT
complete — it propagates the encoding failure to the caller, refuting the
claim that the construction call still completes without memoization. -/
theorem C10_counterexample :
    (addWorkerM ([] : List (String × Nat)) none none 0).isOk = false := by
  decide

/-- C10 amended: when the primary encoding fails the registry falls back
to the alternate encoding; but when both encodings fail, the construction
call aborts — the fallback encoder's exception propagates out of
`addWorker` (there is no outer handler), rather than completing without
memoization. -/
theorem C10_fingerprint_fallback {π : Type} :
    (∀ (a : String) (enc2 : Option String),
       computeGlobalKey (some a) enc2 = .ok (wbKeyTag ++ a))
    ∧ (∀ b : String, computeGlobalKey none (some b) = .ok (wbKeyTag ++ b))
    ∧ computeGlobalKey none none = .error ()
    ∧ (∀ (registry : List (String × π)) (fresh : π),
         addWorkerM registry none none fresh = .error ()) := by
  exact ⟨fun a enc2 => rfl, fun b => rfl, rfl, fun registry fresh => rfl⟩

end Fingerprint

/-! ## The startup handshake

`start(data)` posts `data` as the very first wire message (src/src/index.ts
line 232); a second `start` returns early (line 219) and posts nothing.
On the worker side, `workerBootstrap` (lines 82-146) attaches the message
listener and then performs one parameterless `receive()` (line 143); user
logic `workerFn` runs in the `.then` of that receive (line 144), i.e. only
after the first message — the initialization payload — has arrived and
resolved it. -/

/-- Whether an initiator-side API call is `stop`. -/
def isStopC {μ : Type} : MCall μ → Bool
  | .stop => true
  | _ => false

/-- The payloads of the `send` calls in a call sequence, in order. -/
def sentOf {μ : Type} : List (MCall μ) → List μ
  | [] => []
  | .send m :: rest => m :: sentOf rest
  | _ :: rest => sentOf rest

theorem sentOf_cons {μ : Type} (c : MCall μ) (rest : List (MCall μ)) :
    sentOf (c :: rest) = sentOf [c] ++ sentOf rest := by
  cases c <;> rfl

theorem mstep_no_stop {μ : Type} (s : MainChannel μ) (w : Nat) (c : MCall μ)
    (hw : s.worker = some w) (hc : isStopC c = false) :
    ∃ s1, mstep s c = .ok s1 ∧ s1.worker = some w ∧ s1.posted = s.posted ++ sentOf [c] := by
  cases c with
  | start d =>
    refine ⟨s, ?_, hw, by simp [sentOf]⟩
    unfold mstep startM; rw [hw]
  | send m =>
    refine ⟨{ s with posted := s.posted ++ [m] }, ?_, hw, rfl⟩
    unfold mstep sendM; rw [hw]
  | receive now rid timeoutMs =>
    exact ⟨{ s with ep := step s.ep now (.receiveCall rid timeoutMs) }, rfl, hw, by simp [sentOf]⟩
  | poll =>
    exact ⟨{ s with ep := step s.ep 0 .pollCall }, rfl, hw, by simp [sentOf]⟩
  | subscribe sid =>
    refine ⟨{ s with ep := step s.ep 0 (.subscribeCall sid) }, ?_, hw, by simp [sentOf]⟩
    unfold mstep subscribeM; rw [hw]
  | unsubscribe sid =>
    refine ⟨{ s with ep := step s.ep 0 (.unsubscribeCall sid) }, ?_, hw, by simp [sentOf]⟩
    unfold mstep unsubscribeM; rw [hw]
  | stop => cases hc

theorem mrun_posted {μ : Type} (s : MainChannel μ) (w : Nat) (calls : List (MCall μ))
    (hw : s.worker = some w) (hns : ∀ c ∈ calls, isStopC c = false) :
    ∃ s1, mrun s calls = .ok s1 ∧ s1.posted = s.posted ++ sentOf calls ∧ s1.worker = some w := by
  induction calls generalizing s with
  | nil => exact ⟨s, rfl, by simp [sentOf], hw⟩
  | cons c rest ih =>
    have hns1 : ∀ x ∈ rest, isStopC x = false :=
      fun x hx => hns x (List.mem_cons_of_mem _ hx)
    obtain ⟨s1, hstep, hw1, hp1⟩ :=
      mstep_no_stop s w c hw (hns c (List.mem_cons_self _ _))
    obtain ⟨s2, hrun, hp2, hw2⟩ := ih s1 hw1 hns1
    refine ⟨s2, ?_, ?_, hw2⟩
    · simp [mrun, hstep, hrun]
    · rw [hp2, hp1, sentOf_cons c rest, List.append_assoc]

/-- The worker-side endpoint state after `workerBootstrap` has run
(src/src/index.ts lines 82-146): the message listener is attached (lines
132-141) and the single parameterless `receive()` of line 143 is the only
pending receiver (queue empty, no timeout).  The worker evaluates the
bootstrap script to completion before the first posted message event is
dispatched, so every arrival is processed from this state; `workerFn` is
invoked in the `.then` of that receive (line 144), only after its
resolution. -/
def bootEP {μ : Type} (initRid : Nat) : EndpointState μ :=
  { emptyEP with pendingReceivers := [{ rid := initRid, deadline := none }] }

/-- Side condition on a worker-side event for the post-handshake phase:
arrivals carry one of the subsequently-sent payloads `ms`, and user-logic
`receive()` calls do not reuse the bootstrap receiver's id. -/
def evOk {μ : Type} [DecidableEq μ] (initRid : Nat) (ms : List μ) : Event μ → Bool
  | .arrive m => decide (m ∈ ms)
  | .receiveCall rid _ => decide (rid ≠ initRid)
  | _ => true

/-- The invariant of the worker-side endpoint after the handshake: the
bootstrap receiver id is no longer pending, its only resolution (ever) is
the initialization payload `d` at time `t`, and every other value
observable through the queue, `receive()` resolutions or `poll()` results
is one of the subsequently-sent payloads `ms`. -/
def handshakeInv {μ : Type} (initRid t : Nat) (d : μ) (ms : List μ)
    (s : EndpointState μ) : Prop :=
  (∀ r ∈ s.pendingReceivers, r.rid ≠ initRid)
  ∧ (t, initRid, some d) ∈ s.resolved
  ∧ (∀ e ∈ s.resolved, e.2.1 = initRid → e = (t, initRid, some d))
  ∧ (∀ a ∈ s.messageQueue, a ∈ ms)
  ∧ (∀ e ∈ s.resolved, e.2.1 ≠ initRid → ∀ v, e.2.2 = some v → v ∈ ms)
  ∧ (∀ o ∈ s.pollLog, ∀ v, o = some v → v ∈ ms)

theorem handshakeInv_step {μ : Type} [DecidableEq μ] (initRid t : Nat) (d : μ)
    (ms : List μ) (s : EndpointState μ) (now : Nat) (e : Event μ)
    (he : evOk initRid ms e = true) (h : handshakeInv initRid t d ms s) :
    handshakeInv initRid t d ms (step s now e) := by
  obtain ⟨h1, h2, h3, h4, h5, h6⟩ := h
  cases e with
  | arrive m =>
    have hm : m ∈ ms := by simpa [evOk] using he
    cases hp : s.pendingReceivers with
    | nil =>
      rw [step, onArrive_nil s now m hp]
      refine ⟨h1, h2, h3, ?_, h5, h6⟩
      intro a ha
      rcases List.mem_append.mp ha with hold | hnew
      · exact h4 a hold
      · have : a = m := by simpa using hnew
        exact this ▸ hm
    | cons r rest =>
      rw [step, onArrive_cons s now m r rest hp]
      have hr : r ∈ s.pendingReceivers := hp ▸ List.mem_cons_self r rest
      refine ⟨?_, List.mem_append_left _ h2, ?_, h4, ?_, h6⟩
      · intro x hx
        exact h1 x (hp ▸ List.mem_cons_of_mem r hx)
      · intro e2 he2 heq
        rcases List.mem_append.mp he2 with hold | hnew
        · exact h3 e2 hold heq
        · exfalso
          have hval : e2 = (now, r.rid, some m) := by simpa using hnew
          apply h1 r hr
          rw [hval] at heq
          exact heq
      · intro e2 he2 hne v hv
        rcases List.mem_append.mp he2 with hold | hnew
        · exact h5 e2 hold hne v hv
        · have hval : e2 = (now, r.rid, some m) := by simpa using hnew
          rw [hval] at hv
          have : m = v := by simpa using hv
          exact this ▸ hm
  | receiveCall rid timeoutMs =>
    have hrid : rid ≠ initRid := by simpa [evOk] using he
    cases hq : s.messageQueue with
    | nil =>
      rw [step, onReceive_nil s now rid timeoutMs hq]
      refine ⟨?_, h2, h3, h4, h5, h6⟩
      intro r hrm
      rcases List.mem_append.mp hrm with hold | hnew
      · exact h1 r hold
      · have : r = { rid := rid, deadline := timeoutMs.map (fun x => now + x) } := by
          simpa using hnew
        rw [this]
        exact hrid
    | cons m rest =>
      rw [step, onReceive_cons s now rid timeoutMs m rest hq]
      have hm : m ∈ ms := h4 m (hq ▸ List.mem_cons_self m rest)
      refine ⟨h1, List.mem_append_left _ h2, ?_, ?_, ?_, h6⟩
      · intro e2 he2 heq
        rcases List.mem_append.mp he2 with hold | hnew
        · exact h3 e2 hold heq
        · exfalso
          have hval : e2 = (now, rid, some m) := by simpa using hnew
          apply hrid
          rw [hval] at heq
          exact heq
      · intro a ha
        exact h4 a (hq ▸ List.mem_cons_of_mem m ha)
      · intro e2 he2 hne v hv
        rcases List.mem_append.mp he2 with hold | hnew
        · exact h5 e2 hold hne v hv
        · have hval : e2 = (now, rid, some m) := by simpa using hnew
          rw [hval] at hv
          have : m = v := by simpa using hv
          exact this ▸ hm
  | pollCall =>
    cases hq : s.messageQueue with
    | nil =>
      rw [step, onPoll_nil s hq]
      refine ⟨h1, h2, h3, h4, h5, ?_⟩
      intro o ho v hv
      rcases List.mem_append.mp ho with hold | hnew
      · exact h6 o hold v hv
      · have : o = none := by simpa using hnew
        rw [this] at hv
        cases hv
    | cons m rest =>
      rw [step, onPoll_cons s m rest hq]
      have hm : m ∈ ms := h4 m (hq ▸ List.mem_cons_self m rest)
      refine ⟨h1, h2, h3, ?_, h5, ?_⟩
      · intro a ha
        exact h4 a (hq ▸ List.mem_cons_of_mem m ha)
      · intro o ho v hv
        rcases List.mem_append.mp ho with hold | hnew
        · exact h6 o hold v hv
        · have : o = some m := by simpa using hnew
          rw [this] at hv
          have : m = v := by simpa using hv
          exact this ▸ hm
  | timerFire rid =>
    by_cases hb : s.pendingReceivers.any (fun r => r.rid == rid) = true
    · rw [step, onTimer_pos s now rid hb]
      have hrne : rid ≠ initRid := by
        rcases List.any_eq_true.mp hb with ⟨r, hrm, hrr⟩
        have hrr2 : r.rid = rid := by simpa using hrr
        intro hcontra
        exact h1 r hrm (hrr2.trans hcontra)
      refine ⟨?_, List.mem_append_left _ h2, ?_, h4, ?_, h6⟩
      · intro r hrm
        exact h1 r (mem_removeFirstRid _ _ r hrm)
      · intro e2 he2 heq
        rcases List.mem_append.mp he2 with hold | hnew
        · exact h3 e2 hold heq
        · exfalso
          have hval : e2 = (now, rid, none) := by simpa using hnew
          apply hrne
          rw [hval] at heq
          exact heq
      · intro e2 he2 hne v hv
        rcases List.mem_append.mp he2 with hold | hnew
        · exact h5 e2 hold hne v hv
        · have hval : e2 = (now, rid, none) := by simpa using hnew
          rw [hval] at hv
          cases hv
    · rw [step, onTimer_neg s now rid (by simpa using hb)]
      exact ⟨h1, h2, h3, h4, h5, h6⟩
  | subscribeCall sid => exact ⟨h1, h2, h3, h4, h5, h6⟩
  | unsubscribeCall sid => exact ⟨h1, h2, h3, h4, h5, h6⟩

theorem handshakeInv_runT {μ : Type} [DecidableEq μ] (initRid t : Nat) (d : μ)
    (ms : List μ) (s : EndpointState μ) (tr : List (Nat × Event μ))
    (htr : ∀ p ∈ tr, evOk initRid ms p.2 = true)
    (h : handshakeInv initRid t d ms s) :
    handshakeInv initRid t d ms (runT s tr) := by
  induction tr generalizing s with
  | nil => exact h
  | cons p rest ih =>
    cases p with | mk t2 e =>
    exact ih (step s t2 e)
      (fun q hq => htr q (List.mem_cons_of_mem _ hq))
      (handshakeInv_step initRid t d ms s t2 e
        (htr (t2, e) (List.mem_cons_self _ _)) h)

/-- C3: the startup handshake.  (1) On the initiator side, the first
`start(d)` posts `d` as the very first wire message; under any further
calls without `stop`, the wire carries exactly `d` followed by the `send`
payloads in order — in particular a repeated `start` posts nothing.
(2) On the worker side, the bootstrap state has exactly one parameterless
pending receive, and the first arrival — the handshake payload — resolves
it, leaving an empty queue and no pending receivers when user logic runs
(user logic is invoked in the `.then` of that receive, so only after the
payload arrived).  (3) From then on, for any trace of worker-side events
whose arrivals carry the subsequently-sent payloads `ms` and whose
`receive` calls use fresh ids: the bootstrap receiver resolves to nothing
else, and every value observable via `receive()` or `poll()` belongs to
`ms` — the initialization payload occupied one slot of the stream and is
never observable again (unless the same value is independently re-sent as
a member of `ms`). -/
theorem C3_handshake {μ : Type} [DecidableEq μ] :
    (∀ (d : μ) (calls : List (MCall μ)),
       (∀ c ∈ calls, isStopC c = false) →
       (mrun initMain (MCall.start d :: calls)).map (fun s => s.posted)
         = .ok (d :: sentOf calls))
    ∧ (∀ (initRid t : Nat) (d : μ),
        step (bootEP initRid) t (.arrive d)
          = { messageQueue := [], pendingReceivers := [], subscribers := [],
              resolved := [(t, initRid, some d)], pollLog := [] })
    ∧ (∀ (initRid t : Nat) (d : μ) (ms : List μ) (tr : List (Nat × Event μ)),
        (∀ p ∈ tr, evOk initRid ms p.2 = true) →
        (t, initRid, some d) ∈ (runT (step (bootEP initRid) t (.arrive d)) tr).resolved
        ∧ (∀ e ∈ (runT (step (bootEP initRid) t (.arrive d)) tr).resolved,
            e.2.1 = initRid → e = (t, initRid, some d))
        ∧ (∀ e ∈ (runT (step (bootEP initRid) t (.arrive d)) tr).resolved,
            e.2.1 ≠ initRid → ∀ v, e.2.2 = some v → v ∈ ms)
        ∧ (∀ o ∈ (runT (step (bootEP initRid) t (.arrive d)) tr).pollLog,
            ∀ v, o = some v → v ∈ ms)) := by
  have hboot : ∀ (initRid t : Nat) (d : μ),
      step (bootEP initRid) t (.arrive d)
        = { messageQueue := [], pendingReceivers := [], subscribers := [],
            resolved := [(t, initRid, some d)], pollLog := [] } := by
    intro initRid t d
    rw [step, onArrive_cons (bootEP initRid) t d { rid := initRid, deadline := none } [] rfl]
    rfl
  refine ⟨?_, hboot, ?_⟩
  · intro d calls hns
    have hstart : mstep (initMain : MainChannel μ) (.start d)
        = .ok { worker := some 0, spawnCount := 1, urlRevoked := false,
                posted := [d], ep := emptyEP } := rfl
    obtain ⟨s2, hrun, hp2, _⟩ := mrun_posted
      { worker := some 0, spawnCount := 1, urlRevoked := false,
        posted := [d], ep := emptyEP } 0 calls rfl hns
    simp only [mrun, hstart, hrun, Except.map]
    rw [hp2]
    rfl
  · intro initRid t d ms tr htr
    have hinv : handshakeInv initRid t d ms (step (bootEP initRid) t (.arrive d)) := by
      rw [hboot]
      refine ⟨?_, ?_, ?_, ?_, ?_, ?_⟩
      · intro r hr; cases hr
      · exact List.mem_singleton.mpr rfl
      · intro e2 he2 _
        simpa using he2
      · intro a ha; cases ha
      · intro e2 he2 hne
        exfalso
        apply hne
        have : e2 = (t, initRid, some d) := by simpa using he2
        rw [this]
      · intro o ho; cases ho
    have := handshakeInv_runT initRid t d ms _ tr htr hinv
    exact ⟨this.2.1, this.2.2.1, this.2.2.2.2.1, this.2.2.2.2.2⟩

/-- Witness for C3 at concrete inputs: the wire after
`start 9; send 1; start 8; send 2` is `[9, 1, 2]` (the repeated start
posts nothing), and after the handshake arrival the worker-side endpoint
run on an arrival of `1` interleaved with a `receive` and a `poll` never
again resolves the bootstrap receiver id `0`. -/
theorem C3_handshake_witness :
    ((∀ c ∈ [MCall.send (1 : Nat), .start 8, .send 2], isStopC c = false)
     ∧ (∀ p ∈ [((1 : Nat), Event.arrive (1 : Nat)), (2, Event.receiveCall 5 none),
          (3, Event.pollCall)], evOk 0 [1, 2] p.2 = true))
    ∧ (mrun initMain [MCall.start (9 : Nat), .send 1, .start 8, .send 2]).map
        (fun s => s.posted) = .ok [9, 1, 2]
    ∧ (∀ e ∈ (runT (step (bootEP 0) 0 (.arrive (9 : Nat)))
          [(1, Event.arrive 1), (2, Event.receiveCall 5 none), (3, Event.pollCall)]).resolved,
        e.2.1 = 0 → e = (0, 0, some 9)) := by
  refine ⟨⟨by decide, by decide⟩, ?_, ?_⟩
  · exact (C3_handshake (μ := Nat)).1 9 [.send 1, .start 8, .send 2] (by decide)
  · exact ((C3_handshake (μ := Nat)).2.2 0 0 9 [1, 2]
      [(1, Event.arrive 1), (2, Event.receiveCall 5 none), (3, Event.pollCall)]
      (by decide)).2.1

end WorkerBox
